import Mathlib

/-!
Shallow embedding of `src/event_study/mk_events.py` (`mk_event_df` and its
inner helper `_mk_et`).  The CSV-reading step (step 1 of the source) is the
responsibility of an external loader; the embedding takes the parsed
recommendation records as input, exactly the data the data frame holds after
`pd.read_csv(..., index_col='Date', parse_dates=['Date'])` and column
standardisation: a timestamp index, a `firm` column and an `action` column.

The pipeline embedded here, line by line from the source:
* step 2 (lines 53-54): uppercase `firm`, derive `event_date` by formatting
  the timestamp as `YYYY-MM-DD`;
* step 3 (lines 57-59): sort by the timestamp index ascending, group by
  `(event_date, firm)` (pandas sorts group keys ascending), keep the last
  row of each group;
* step 4.1 (lines 63-64): keep rows whose `action` contains the substring
  "up" or "down" (`str.contains('up|down')`, a case-sensitive regex search);
* step 4.2 (lines 67-80): map `action` through `_mk_et`, which returns
  "downgrade" for the exact string "down", "upgrade" for the exact string
  "up", and raises for anything else (the exception propagates row by row,
  first failure first);
* steps 4.3-4.4 (lines 83-89): positional index starting at 1, named
  `event_id`, and projection to `firm`, `event_date`, `event_type`.
-/

/-- Calendar date carried by a record's timestamp. -/
structure Date where
  year : Nat
  month : Nat
  day : Nat
deriving DecidableEq, Repr

/-- A timestamp: a calendar date plus a time-of-day ordinal (the sub-day
precision pandas keeps in the datetime index; only its ordering matters). -/
structure Timestamp where
  date : Date
  tod : Nat
deriving DecidableEq, Repr

/-- An input recommendation record: the timestamp index together with the
`firm` and `action` columns of the standardised data frame. -/
structure Rec where
  ts : Timestamp
  firm : String
  action : String
deriving DecidableEq, Repr

/-- A record after step 2 of the source: `firm` uppercased, `event_date`
derived from the timestamp; the timestamp and `action` ride along. -/
structure Rec2 where
  ts : Timestamp
  firm : String
  event_date : String
  action : String
deriving DecidableEq, Repr

/-- A classified record, before the `event_id` index is attached. -/
structure Pre where
  firm : String
  event_date : String
  event_type : String
deriving DecidableEq, Repr

/-- A row of the output data frame, `event_id` included. -/
structure Row where
  event_id : Nat
  firm : String
  event_date : String
  event_type : String
deriving DecidableEq, Repr

/-- Character-wise uppercasing, the embedding of pandas `str.upper`. -/
def upperStr (s : String) : String := ⟨s.data.map Char.toUpper⟩

/-- Zero-pad a number to two digits, as `%m` and `%d` do in `strftime`. -/
def pad2 (n : Nat) : String := if n < 10 then "0" ++ toString n else toString n

/-- Zero-pad a number to four digits, as `%Y` does in `strftime`. -/
def pad4 (n : Nat) : String :=
  if n < 10 then "000" ++ toString n
  else if n < 100 then "00" ++ toString n
  else if n < 1000 then "0" ++ toString n
  else toString n

/-- `strftime('%Y-%m-%d')` on the date component of the timestamp. -/
def fmtDate (d : Date) : String := pad4 d.year ++ "-" ++ pad2 d.month ++ "-" ++ pad2 d.day

/-- Decidable equality of `Except` results, so concrete runs of the builder
can be checked by evaluation. -/
instance {ε α : Type} [DecidableEq ε] [DecidableEq α] : DecidableEq (Except ε α) := fun x y =>
  match x, y with
  | Except.ok a, Except.ok b =>
    if h : a = b then isTrue (by rw [h]) else isFalse (by simp [h])
  | Except.error a, Except.error b =>
    if h : a = b then isTrue (by rw [h]) else isFalse (by simp [h])
  | Except.ok _, Except.error _ => isFalse (by simp)
  | Except.error _, Except.ok _ => isFalse (by simp)

/-- Step 2 of the source (lines 53-54). -/
def normalizeRec (r : Rec) : Rec2 :=
  { ts := r.ts, firm := upperStr r.firm, event_date := fmtDate r.ts.date, action := r.action }

/-- Chronological order on timestamps: lexicographic on the date fields,
then on the time-of-day ordinal. -/
def tsLE (a b : Timestamp) : Prop :=
  a.date.year < b.date.year ∨ (a.date.year = b.date.year ∧
    (a.date.month < b.date.month ∨ (a.date.month = b.date.month ∧
      (a.date.day < b.date.day ∨ (a.date.day = b.date.day ∧ a.tod ≤ b.tod)))))

/-- Strict chronological order on timestamps. -/
def tsLT (a b : Timestamp) : Prop := tsLE a b ∧ ¬ tsLE b a

instance : DecidableRel tsLE := fun a b => by unfold tsLE; exact inferInstance

instance : DecidableRel tsLT := fun a b => by unfold tsLT; exact inferInstance

/-- The sort key of `df.sort_index()`: compare records by timestamp. -/
def recLE (a b : Rec2) : Prop := tsLE a.ts b.ts

instance : DecidableRel recLE := fun a b => by unfold recLE; exact inferInstance

instance : IsTotal Rec2 recLE := ⟨fun a b => by unfold recLE tsLE; omega⟩

instance : IsTrans Rec2 recLE := ⟨fun a b c => by unfold recLE tsLE; omega⟩

/-- The `(event_date, firm)` group key of a normalised record. -/
def recKey (r : Rec2) : String × String := (r.event_date, r.firm)

/-- Executable lexicographic comparison of character lists (code-point
order), the order Python uses to compare the key strings. -/
def listLtb : List Char → List Char → Bool
  | [], [] => false
  | [], _ :: _ => true
  | _ :: _, [] => false
  | a :: as, b :: bs => if a < b then true else if b < a then false else listLtb as bs

theorem listLtb_iff (x y : List Char) :
    listLtb x y = true ↔ List.Lex (· < ·) x y := by
  induction x generalizing y with
  | nil =>
    cases y with
    | nil => simp [listLtb]
    | cons b bs => simp [listLtb]; exact List.Lex.nil
  | cons a as ih =>
    cases y with
    | nil => simp [listLtb]
    | cons b bs =>
      by_cases hab : a < b
      · simp only [listLtb, if_pos hab, true_iff]
        exact List.Lex.rel hab
      · by_cases hba : b < a
        · simp only [listLtb, if_neg hab, if_pos hba, Bool.false_eq_true, false_iff]
          intro h
          cases h with
          | cons h => exact absurd hba (lt_irrefl _)
          | rel h => exact absurd h hab
        · have heq : a = b := le_antisymm (not_lt.mp hba) (not_lt.mp hab)
          subst heq
          simp only [listLtb, if_neg hab, if_neg hba, ih, List.Lex.cons_iff]

/-- Executable strict comparison of strings (code-point lexicographic). -/
def strLtb (a b : String) : Bool := listLtb a.data b.data

/-- Executable non-strict comparison of strings. -/
def strLeb (a b : String) : Bool := listLtb a.data b.data || a = b

theorem strLtb_iff (a b : String) : strLtb a b = true ↔ a < b := by
  rw [String.lt_iff_toList_lt]
  exact listLtb_iff a.data b.data

theorem strLeb_iff (a b : String) : strLeb a b = true ↔ a ≤ b := by
  rw [le_iff_lt_or_eq]
  simp only [strLeb, Bool.or_eq_true, decide_eq_true_eq]
  rw [show listLtb a.data b.data = strLtb a b from rfl, strLtb_iff]

/-- Ascending order on group keys: lexicographic on the string pair, the
order in which pandas `groupby(['event_date', 'firm'])` emits its groups. -/
def keyLE (a b : String × String) : Prop := a.1 < b.1 ∨ (a.1 = b.1 ∧ a.2 ≤ b.2)

/-- Strict ascending order on group keys. -/
def keyLT (a b : String × String) : Prop := a.1 < b.1 ∨ (a.1 = b.1 ∧ a.2 < b.2)

instance : DecidableRel keyLE := fun a b =>
  decidable_of_iff ((strLtb a.1 b.1 || (a.1 = b.1 && strLeb a.2 b.2)) = true) (by
    simp only [Bool.or_eq_true, Bool.and_eq_true, decide_eq_true_eq, strLtb_iff, strLeb_iff]
    exact Iff.rfl)

instance : DecidableRel keyLT := fun a b =>
  decidable_of_iff ((strLtb a.1 b.1 || (a.1 = b.1 && strLtb a.2 b.2)) = true) (by
    simp only [Bool.or_eq_true, Bool.and_eq_true, decide_eq_true_eq, strLtb_iff]
    exact Iff.rfl)

instance : IsTotal (String × String) keyLE := ⟨fun a b => by
  unfold keyLE
  rcases lt_trichotomy a.1 b.1 with h | h | h
  · exact Or.inl (Or.inl h)
  · rcases le_total a.2 b.2 with h2 | h2
    · exact Or.inl (Or.inr ⟨h, h2⟩)
    · exact Or.inr (Or.inr ⟨h.symm, h2⟩)
  · exact Or.inr (Or.inl h)⟩

instance : IsTrans (String × String) keyLE := ⟨fun a b c hab hbc => by
  unfold keyLE at *
  rcases hab with h1 | ⟨h1, h1'⟩ <;> rcases hbc with h2 | ⟨h2, h2'⟩
  · exact Or.inl (h1.trans h2)
  · exact Or.inl (h2 ▸ h1)
  · exact Or.inl (h1 ▸ h2)
  · exact Or.inr ⟨h1.trans h2, h1'.trans h2'⟩⟩

/-- The ascending list of group keys produced by
`df.groupby(['event_date', 'firm'])`: the distinct keys occurring in the
frame, in ascending lexicographic order. -/
def groupKeys (l : List Rec2) : List (String × String) :=
  List.insertionSort keyLE (l.map recKey).dedup

/-- The last row of a group: the last record of `l` (in its current order)
whose key is `k`, which is what `groups.last()` selects per group. -/
def lastOfGroup (l : List Rec2) (k : String × String) : Option Rec2 :=
  (l.filter (fun r => recKey r = k)).getLast?

/-- Step 3 of the source, lines 58-59: group the (already sorted) frame by
`(event_date, firm)` and keep the last row of each group; the groups come
out in ascending key order. -/
def dedupLast (l : List Rec2) : List Rec2 :=
  (groupKeys l).filterMap (lastOfGroup l)

/-- `pre` is a prefix of `s` (on character lists). -/
def listHasPre : List Char → List Char → Bool
  | [], _ => true
  | _ :: _, [] => false
  | a :: asx, b :: bs => a = b && listHasPre asx bs

/-- `pat` occurs as a contiguous substring of `s` (on character lists). -/
def listHasSub (pat : List Char) : List Char → Bool
  | [] => listHasPre pat []
  | b :: bs => listHasPre pat (b :: bs) || listHasSub pat bs

/-- Case-sensitive substring containment on strings. -/
def containsStr (s pat : String) : Bool := listHasSub pat.data s.data

/-- The relevance condition of step 4.1 (line 63):
`df['action'].str.contains('up|down')`, a regex search that succeeds exactly
when the action text contains the substring "up" or the substring "down". -/
def relevant (a : String) : Bool := containsStr a "up" || containsStr a "down"

/-- The error message raised by `_mk_et` (line 78 of the source). -/
def unknownActionMsg (value : String) : String :=
  "Unknown value for column `action`: " ++ value

/-- The inner helper `_mk_et` (lines 67-78): "down" maps to "downgrade",
"up" maps to "upgrade", anything else raises. -/
def mk_et (value : String) : Except String String :=
  if value = "down" then Except.ok "downgrade"
  else if value = "up" then Except.ok "upgrade"
  else Except.error (unknownActionMsg value)

/-- `df['action'].apply(_mk_et)` (line 80): classify every row in order; the
first exception aborts the whole build. -/
def classifyAll : List Rec2 → Except String (List Pre)
  | [] => Except.ok []
  | r :: rs =>
    match mk_et r.action with
    | Except.error e => Except.error e
    | Except.ok et =>
      match classifyAll rs with
      | Except.error e => Except.error e
      | Except.ok ps => Except.ok ({ firm := r.firm, event_date := r.event_date, event_type := et } :: ps)

/-- Positional indexing from a starting index: row `j` of the list gets
`event_id = i + j`. -/
def assignIdsFrom (i : Nat) : List Pre → List Row
  | [] => []
  | p :: ps =>
    { event_id := i, firm := p.firm, event_date := p.event_date,
      event_type := p.event_type } :: assignIdsFrom (i + 1) ps

/-- Steps 4.3-4.4 (lines 83-89): attach the positional `event_id` index
starting at 1 and project the final columns. -/
def assignIds (l : List Pre) : List Row := assignIdsFrom 1 l

/-- Step 2 of the source on the whole frame (lines 53-54). -/
def step2 (records : List Rec) : List Rec2 := records.map normalizeRec

/-- Step 3 of the source (lines 57-59): sort by the timestamp index, group
by `(event_date, firm)` and keep the last row of each group. -/
def step3 (records : List Rec) : List Rec2 :=
  dedupLast (List.insertionSort recLE (step2 records))

/-- Step 4.1 of the source (lines 63-64): keep only the rows whose action
text matches the regex `'up|down'`. -/
def step4 (records : List Rec) : List Rec2 :=
  (step3 records).filter (fun r => relevant r.action)

/-- The whole builder, steps 2 through 4.4 of `mk_event_df`, as a function
from the loaded recommendation records to either the output rows or the
propagated classification exception. -/
def mk_event_df (records : List Rec) : Except String (List Row) :=
  match classifyAll (step4 records) with
  | Except.error e => Except.error e
  | Except.ok ps => Except.ok (assignIds ps)

/-! ### Correctness of the substring matcher -/

/-- `pat` occurs as a contiguous, case-sensitive substring of `s`. -/
def SubStr (pat s : String) : Prop :=
  ∃ pre post : List Char, s.data = pre ++ (pat.data ++ post)

theorem listHasPre_iff (pat s : List Char) :
    listHasPre pat s = true ↔ ∃ post, s = pat ++ post := by
  induction pat generalizing s with
  | nil => simp [listHasPre]
  | cons a tl ih =>
    cases s with
    | nil => simp [listHasPre]
    | cons b bs =>
      show (decide (a = b) && listHasPre tl bs) = true ↔ _
      constructor
      · intro h
        rw [Bool.and_eq_true, decide_eq_true_eq] at h
        obtain ⟨post, hp⟩ := (ih bs).mp h.2
        exact ⟨post, by rw [List.cons_append, h.1, hp]⟩
      · rintro ⟨post, hp⟩
        rw [List.cons_append, List.cons.injEq] at hp
        rw [Bool.and_eq_true, decide_eq_true_eq]
        exact ⟨hp.1.symm, (ih bs).mpr ⟨post, hp.2⟩⟩

theorem listHasSub_iff (pat s : List Char) :
    listHasSub pat s = true ↔ ∃ pre post, s = pre ++ (pat ++ post) := by
  induction s with
  | nil =>
    rw [show listHasSub pat [] = listHasPre pat [] from rfl, listHasPre_iff]
    constructor
    · rintro ⟨post, hp⟩
      exact ⟨[], post, by simpa using hp⟩
    · rintro ⟨pre, post, hp⟩
      obtain ⟨h1, h2, h3⟩ : pre = [] ∧ pat = [] ∧ post = [] := by
        simpa [List.append_eq_nil] using hp.symm
      exact ⟨post, by simp [h2, h3]⟩
  | cons b bs ih =>
    simp only [listHasSub, Bool.or_eq_true, listHasPre_iff, ih]
    constructor
    · rintro (⟨post, h⟩ | ⟨pre, post, h⟩)
      · exact ⟨[], post, by simp [h]⟩
      · exact ⟨b :: pre, post, by simp [h]⟩
    · rintro ⟨pre, post, h⟩
      cases pre with
      | nil => exact Or.inl ⟨post, by simpa using h⟩
      | cons c cs =>
        rw [List.cons_append, List.cons.injEq] at h
        exact Or.inr ⟨cs, post, h.2⟩

theorem containsStr_iff (s pat : String) : containsStr s pat = true ↔ SubStr pat s :=
  listHasSub_iff pat.data s.data

theorem relevant_iff (a : String) :
    relevant a = true ↔ SubStr "up" a ∨ SubStr "down" a := by
  simp [relevant, Bool.or_eq_true, containsStr_iff]

/-! ### Structure of the group-and-take-last step -/

/-- The `(event_date, firm)` key of an output row. -/
def rowKey (r : Row) : String × String := (r.event_date, r.firm)

/-- The `(event_date, firm)` key of a classified record. -/
def preKey (p : Pre) : String × String := (p.event_date, p.firm)

theorem keyLT_of_keyLE_ne {a b : String × String} (h : keyLE a b) (hne : a ≠ b) :
    keyLT a b := by
  rcases h with h | ⟨h1, h2⟩
  · exact Or.inl h
  · refine Or.inr ⟨h1, lt_of_le_of_ne h2 ?_⟩
    intro h3
    exact hne (Prod.ext h1 h3)

theorem groupKeys_pairwise (l : List Rec2) : (groupKeys l).Pairwise keyLT := by
  have hs : (groupKeys l).Pairwise keyLE := List.sorted_insertionSort keyLE _
  have hn : (groupKeys l).Nodup :=
    ((List.perm_insertionSort keyLE _).nodup_iff).mpr (List.nodup_dedup _)
  exact (hs.and hn).imp fun h => keyLT_of_keyLE_ne h.1 h.2

theorem lastOfGroup_key {l : List Rec2} {k : String × String} {r : Rec2}
    (h : lastOfGroup l k = some r) : recKey r = k := by
  have hm : r ∈ l.filter (fun r => recKey r = k) := List.mem_of_getLast?_eq_some h
  exact of_decide_eq_true (List.mem_filter.mp hm).2

theorem lastOfGroup_mem {l : List Rec2} {k : String × String} {r : Rec2}
    (h : lastOfGroup l k = some r) : r ∈ l :=
  List.mem_of_mem_filter (List.mem_of_getLast?_eq_some h)

theorem dedupLast_pairwise (l : List Rec2) :
    (dedupLast l).Pairwise (fun a b => keyLT (recKey a) (recKey b)) :=
  (groupKeys_pairwise l).filterMap (lastOfGroup l) fun _ _ hkk r hr r' hr' => by
    rw [lastOfGroup_key (Option.mem_def.mp hr), lastOfGroup_key (Option.mem_def.mp hr')]
    exact hkk

theorem dedupLast_mem {l : List Rec2} {r : Rec2} (h : r ∈ dedupLast l) : r ∈ l := by
  obtain ⟨k, _, hr⟩ := List.mem_filterMap.mp h
  exact lastOfGroup_mem hr

/-! ### Structure of the classification step -/

theorem classifyAll_cons (r : Rec2) (rs : List Rec2) :
    classifyAll (r :: rs) =
      match mk_et r.action with
      | Except.error e => Except.error e
      | Except.ok et =>
        match classifyAll rs with
        | Except.error e => Except.error e
        | Except.ok ps =>
          Except.ok ({ firm := r.firm, event_date := r.event_date, event_type := et } :: ps) :=
  rfl

theorem mk_et_ok_iff (x et : String) :
    mk_et x = Except.ok et ↔ (x = "down" ∧ et = "downgrade") ∨ (x = "up" ∧ et = "upgrade") := by
  by_cases h : x = "down"
  · subst h; simp [mk_et, eq_comm]
  · by_cases h' : x = "up"
    · subst h'; simp [mk_et, eq_comm]
    · simp [mk_et, h, h']

theorem classifyAll_ok_mem {l : List Rec2} {ps : List Pre}
    (h : classifyAll l = Except.ok ps) :
    ∀ p ∈ ps, ∃ r ∈ l, p.firm = r.firm ∧ p.event_date = r.event_date ∧
      mk_et r.action = Except.ok p.event_type := by
  induction l generalizing ps with
  | nil =>
    obtain rfl : ([] : List Pre) = ps := by simpa [classifyAll] using h
    simp
  | cons r rs ih =>
    rw [classifyAll_cons] at h
    split at h
    · cases h
    · rename_i et het
      split at h
      · cases h
      · rename_i ps' hps
        injection h with h
        subst h
        intro p hp
        rcases List.mem_cons.mp hp with hp | hp
        · exact ⟨r, List.mem_cons_self r rs, by simp [hp, het]⟩
        · obtain ⟨r', hr', h1, h2, h3⟩ := ih hps p hp
          exact ⟨r', List.mem_cons_of_mem _ hr', h1, h2, h3⟩

theorem classifyAll_ok_keys {l : List Rec2} {ps : List Pre}
    (h : classifyAll l = Except.ok ps) : ps.map preKey = l.map recKey := by
  induction l generalizing ps with
  | nil =>
    obtain rfl : ([] : List Pre) = ps := by simpa [classifyAll] using h
    simp
  | cons r rs ih =>
    rw [classifyAll_cons] at h
    split at h
    · cases h
    · rename_i et het
      split at h
      · cases h
      · rename_i ps' hps
        injection h with h
        subst h
        simp [preKey, recKey, ih hps]

theorem classifyAll_error_of_bad {l : List Rec2} {r : Rec2}
    (hr : r ∈ l) (h1 : r.action ≠ "down") (h2 : r.action ≠ "up") :
    ∃ a, classifyAll l = Except.error (unknownActionMsg a) ∧
      (∃ s ∈ l, s.action = a) ∧ a ≠ "down" ∧ a ≠ "up" := by
  induction l with
  | nil => cases hr
  | cons r0 rs ih =>
    by_cases h0 : r0.action = "down" ∨ r0.action = "up"
    · have hok : ∃ et, mk_et r0.action = Except.ok et := by
        rcases h0 with h | h
        · exact ⟨"downgrade", by simp [mk_et, h]⟩
        · exact ⟨"upgrade", by simp [mk_et, h]⟩
      obtain ⟨et, het⟩ := hok
      have hr' : r ∈ rs := by
        rcases List.mem_cons.mp hr with h | h
        · subst h; rcases h0 with h | h
          · exact absurd h h1
          · exact absurd h h2
        · exact h
      obtain ⟨a, ha, ⟨s, hs, hsa⟩, hne⟩ := ih hr'
      exact ⟨a, by simp [classifyAll_cons, het, ha], ⟨s, List.mem_cons_of_mem _ hs, hsa⟩, hne⟩
    · push_neg at h0
      refine ⟨r0.action, ?_, ⟨r0, List.mem_cons_self r0 rs, rfl⟩, h0.1, h0.2⟩
      simp [classifyAll_cons, mk_et, h0.1, h0.2]

theorem classifyAll_ok_of_all {l : List Rec2}
    (h : ∀ r ∈ l, r.action = "up" ∨ r.action = "down") :
    ∃ ps, classifyAll l = Except.ok ps := by
  induction l with
  | nil => exact ⟨[], rfl⟩
  | cons r rs ih =>
    have hok : ∃ et, mk_et r.action = Except.ok et := by
      rcases h r (List.mem_cons_self r rs) with h' | h'
      · exact ⟨"upgrade", by simp [mk_et, h']⟩
      · exact ⟨"downgrade", by simp [mk_et, h']⟩
    obtain ⟨et, het⟩ := hok
    obtain ⟨ps, hps⟩ := ih fun s hs => h s (List.mem_cons_of_mem _ hs)
    exact ⟨{ firm := r.firm, event_date := r.event_date, event_type := et } :: ps,
      by simp [classifyAll_cons, het, hps]⟩

/-! ### Structure of the id-assignment step -/

theorem assignIdsFrom_map_id (i : Nat) (l : List Pre) :
    (assignIdsFrom i l).map Row.event_id = List.range' i l.length := by
  induction l generalizing i with
  | nil => simp [assignIdsFrom]
  | cons p ps ih => simp [assignIdsFrom, List.range'_succ, ih]

theorem assignIdsFrom_map_key (i : Nat) (l : List Pre) :
    (assignIdsFrom i l).map rowKey = l.map preKey := by
  induction l generalizing i with
  | nil => simp [assignIdsFrom]
  | cons p ps ih => simp [assignIdsFrom, rowKey, preKey, ih]

theorem assignIdsFrom_mem {i : Nat} {l : List Pre} {row : Row}
    (h : row ∈ assignIdsFrom i l) :
    ∃ p ∈ l, row.firm = p.firm ∧ row.event_date = p.event_date ∧
      row.event_type = p.event_type ∧ i ≤ row.event_id := by
  induction l generalizing i with
  | nil => cases h
  | cons p ps ih =>
    rcases List.mem_cons.mp h with h | h
    · exact ⟨p, List.mem_cons_self p ps, by simp [h]⟩
    · obtain ⟨q, hq, h1, h2, h3, h4⟩ := ih h
      exact ⟨q, List.mem_cons_of_mem _ hq, h1, h2, h3, by omega⟩

theorem assignIdsFrom_length (i : Nat) (l : List Pre) :
    (assignIdsFrom i l).length = l.length := by
  induction l generalizing i with
  | nil => rfl
  | cons p ps ih => simp [assignIdsFrom, ih]

theorem assignIdsFrom_pairwise (i : Nat) (l : List Pre) :
    (assignIdsFrom i l).Pairwise (fun a b => a.event_id < b.event_id) := by
  induction l generalizing i with
  | nil => exact List.Pairwise.nil
  | cons p ps ih =>
    refine List.Pairwise.cons ?_ (ih (i + 1))
    intro b hb
    obtain ⟨_, _, _, _, _, hle⟩ := assignIdsFrom_mem hb
    show i < b.event_id
    omega

theorem not_relevant_iff (a : String) :
    relevant a = false ↔ ¬ SubStr "up" a ∧ ¬ SubStr "down" a := by
  rw [← Bool.not_eq_true, relevant_iff]
  tauto

/-! ### Claim theorems -/

/-- C8: for every input on which the builder succeeds, every `event_type`
value in the output is a member of the set {"upgrade", "downgrade"}; no
other value ever appears. -/
theorem event_type_taxonomy_closed (records : List Rec) (rows : List Row)
    (h : mk_event_df records = Except.ok rows) :
    ∀ row ∈ rows, row.event_type = "upgrade" ∨ row.event_type = "downgrade" := by
  unfold mk_event_df at h
  split at h
  · cases h
  · rename_i ps hps
    injection h with h
    subst h
    intro row hrow
    obtain ⟨p, hp, _, _, h3, _⟩ := assignIdsFrom_mem hrow
    obtain ⟨r, _, _, _, hmk⟩ := classifyAll_ok_mem hps p hp
    rcases (mk_et_ok_iff _ _).mp hmk with ⟨_, h'⟩ | ⟨_, h'⟩
    · exact Or.inr (h3.trans h')
    · exact Or.inl (h3.trans h')

/-- Witness for C8 at a concrete input: the builder succeeds on a single
"down" record and the resulting row's `event_type` is in the taxonomy. -/
theorem event_type_taxonomy_closed_witness :
    mk_event_df [⟨⟨⟨2020, 1, 1⟩, 0⟩, "ABC", "down"⟩] =
      Except.ok [⟨1, "ABC", "2020-01-01", "downgrade"⟩] ∧
    (Row.event_type ⟨1, "ABC", "2020-01-01", "downgrade"⟩ = "upgrade" ∨
      Row.event_type ⟨1, "ABC", "2020-01-01", "downgrade"⟩ = "downgrade") :=
  ⟨by decide,
    event_type_taxonomy_closed [⟨⟨⟨2020, 1, 1⟩, 0⟩, "ABC", "down"⟩]
      [⟨1, "ABC", "2020-01-01", "downgrade"⟩] (by decide) _ (by simp)⟩

/-- C5: for every input on which the builder succeeds, the output
`event_id` values are exactly 1, 2, ..., N with no gaps, where N is the
number of output rows, in ascending order. -/
theorem event_ids_dense (records : List Rec) (rows : List Row)
    (h : mk_event_df records = Except.ok rows) :
    rows.map Row.event_id = List.range' 1 rows.length := by
  unfold mk_event_df at h
  split at h
  · cases h
  · rename_i ps hps
    injection h with h
    subst h
    rw [show assignIds ps = assignIdsFrom 1 ps from rfl, assignIdsFrom_map_id,
      assignIdsFrom_length]

/-- Witness for C5 at a concrete two-event input: the ids come out as
`[1, 2]`. -/
theorem event_ids_dense_witness :
    mk_event_df [⟨⟨⟨2020, 1, 2⟩, 0⟩, "B", "up"⟩, ⟨⟨⟨2020, 1, 1⟩, 0⟩, "A", "down"⟩] =
      Except.ok [⟨1, "A", "2020-01-01", "downgrade"⟩, ⟨2, "B", "2020-01-02", "upgrade"⟩] ∧
    [Row.mk 1 "A" "2020-01-01" "downgrade", Row.mk 2 "B" "2020-01-02" "upgrade"].map
        Row.event_id =
      List.range' 1 [Row.mk 1 "A" "2020-01-01" "downgrade",
        Row.mk 2 "B" "2020-01-02" "upgrade"].length :=
  ⟨by decide,
    event_ids_dense [⟨⟨⟨2020, 1, 2⟩, 0⟩, "B", "up"⟩, ⟨⟨⟨2020, 1, 1⟩, 0⟩, "A", "down"⟩]
      _ (by decide)⟩

/-- C6: the output rows are ordered by ascending `(event_date, firm)` key:
whenever one row precedes another, its key is strictly lexically smaller and
its `event_id` is strictly smaller, for every input. -/
theorem rows_sorted_by_key (records : List Rec) (rows : List Row)
    (h : mk_event_df records = Except.ok rows) :
    rows.Pairwise (fun a b => keyLT (rowKey a) (rowKey b) ∧ a.event_id < b.event_id) := by
  unfold mk_event_df at h
  split at h
  · cases h
  · rename_i ps hps
    injection h with h
    subst h
    have h3 : (step3 records).Pairwise (fun a b => keyLT (recKey a) (recKey b)) :=
      dedupLast_pairwise _
    have h4 : (step4 records).Pairwise (fun a b => keyLT (recKey a) (recKey b)) :=
      List.Pairwise.sublist (List.filter_sublist _) h3
    have h5 : (ps.map preKey).Pairwise keyLT := by
      rw [classifyAll_ok_keys hps]
      exact List.pairwise_map.mpr h4
    have h7 : ((assignIds ps).map rowKey).Pairwise keyLT := by
      rw [show assignIds ps = assignIdsFrom 1 ps from rfl, assignIdsFrom_map_key]
      exact List.pairwise_map.mpr (List.pairwise_map.mp h5)
    exact (List.pairwise_map.mp h7).and (assignIdsFrom_pairwise 1 ps)

/-- Witness for C6 at a concrete two-event input: the two output rows are in
ascending key order with ascending ids. -/
theorem rows_sorted_by_key_witness :
    mk_event_df [⟨⟨⟨2020, 5, 2⟩, 0⟩, "zed", "up"⟩, ⟨⟨⟨2020, 4, 30⟩, 0⟩, "Alf", "down"⟩] =
      Except.ok [⟨1, "ALF", "2020-04-30", "downgrade"⟩, ⟨2, "ZED", "2020-05-02", "upgrade"⟩] ∧
    List.Pairwise (fun a b => keyLT (rowKey a) (rowKey b) ∧ a.event_id < b.event_id)
      [Row.mk 1 "ALF" "2020-04-30" "downgrade", Row.mk 2 "ZED" "2020-05-02" "upgrade"] :=
  ⟨by decide,
    rows_sorted_by_key [⟨⟨⟨2020, 5, 2⟩, 0⟩, "zed", "up"⟩, ⟨⟨⟨2020, 4, 30⟩, 0⟩, "Alf", "down"⟩]
      _ (by decide)⟩

/-- C9: every output row carries the uppercased firm of the input record it
came from, and the zero-padded ISO rendering of that record's calendar
date. -/
theorem output_fields_normalized (records : List Rec) (rows : List Row)
    (h : mk_event_df records = Except.ok rows) :
    ∀ row ∈ rows, ∃ r ∈ records,
      row.firm = upperStr r.firm ∧ row.event_date = fmtDate r.ts.date := by
  unfold mk_event_df at h
  split at h
  · cases h
  · rename_i ps hps
    injection h with h
    subst h
    intro row hrow
    obtain ⟨p, hp, hf, hd, _, _⟩ := assignIdsFrom_mem hrow
    obtain ⟨r2, hr2, hpf, hpd, _⟩ := classifyAll_ok_mem hps p hp
    have hr3 : r2 ∈ step3 records := List.mem_of_mem_filter hr2
    have hr5 : r2 ∈ step2 records :=
      (List.perm_insertionSort recLE _).mem_iff.mp (dedupLast_mem hr3)
    obtain ⟨r, hr, hnr⟩ := List.mem_map.mp hr5
    refine ⟨r, hr, ?_, ?_⟩
    · rw [hf, hpf, ← hnr]; rfl
    · rw [hd, hpd, ← hnr]; rfl

/-- Witness for C9: "Morgan Stanley" at 2020-03-15 09:30 comes out as firm
"MORGAN STANLEY" with event_date "2020-03-15". -/
theorem output_fields_normalized_witness :
    mk_event_df [⟨⟨⟨2020, 3, 15⟩, 570⟩, "Morgan Stanley", "down"⟩] =
      Except.ok [⟨1, "MORGAN STANLEY", "2020-03-15", "downgrade"⟩] ∧
    upperStr "Morgan Stanley" = "MORGAN STANLEY" ∧
    fmtDate ⟨2020, 3, 15⟩ = "2020-03-15" ∧
    ∃ r ∈ [(⟨⟨⟨2020, 3, 15⟩, 570⟩, "Morgan Stanley", "down"⟩ : Rec)],
      Row.firm ⟨1, "MORGAN STANLEY", "2020-03-15", "downgrade"⟩ = upperStr r.firm ∧
      Row.event_date ⟨1, "MORGAN STANLEY", "2020-03-15", "downgrade"⟩ = fmtDate r.ts.date :=
  ⟨by decide, by decide, by decide,
    output_fields_normalized [⟨⟨⟨2020, 3, 15⟩, 570⟩, "Morgan Stanley", "down"⟩]
      [⟨1, "MORGAN STANLEY", "2020-03-15", "downgrade"⟩] (by decide) _ (by simp)⟩

/-- C10: when every input action is exactly "up" or exactly "down", the
relevance filter drops nothing and the builder always succeeds (the
classification error branch is unreachable). -/
theorem builder_ok_on_exact_tokens (records : List Rec)
    (h : ∀ r ∈ records, r.action = "up" ∨ r.action = "down") :
    step4 records = step3 records ∧ ∃ rows, mk_event_df records = Except.ok rows := by
  have hstep3 : ∀ r ∈ step3 records, r.action = "up" ∨ r.action = "down" := by
    intro r hr
    have hr5 : r ∈ step2 records :=
      (List.perm_insertionSort recLE _).mem_iff.mp (dedupLast_mem hr)
    obtain ⟨r0, hr0, rfl⟩ := List.mem_map.mp hr5
    exact h r0 hr0
  have hfilter : step4 records = step3 records := by
    unfold step4
    rw [List.filter_eq_self]
    intro r hr
    show relevant r.action = true
    rcases hstep3 r hr with h' | h' <;> rw [h'] <;> decide
  obtain ⟨ps, hps⟩ := classifyAll_ok_of_all (l := step4 records) (by rw [hfilter]; exact hstep3)
  refine ⟨hfilter, assignIds ps, ?_⟩
  unfold mk_event_df
  rw [hps]

/-- Witness for C10: a one-record input with action exactly "up". -/
theorem builder_ok_on_exact_tokens_witness :
    (∀ r ∈ [(⟨⟨⟨2020, 1, 1⟩, 0⟩, "ABC", "up"⟩ : Rec)], r.action = "up" ∨ r.action = "down") ∧
    (step4 [⟨⟨⟨2020, 1, 1⟩, 0⟩, "ABC", "up"⟩] = step3 [⟨⟨⟨2020, 1, 1⟩, 0⟩, "ABC", "up"⟩] ∧
      ∃ rows, mk_event_df [⟨⟨⟨2020, 1, 1⟩, 0⟩, "ABC", "up"⟩] = Except.ok rows) :=
  ⟨by decide, builder_ok_on_exact_tokens [⟨⟨⟨2020, 1, 1⟩, 0⟩, "ABC", "up"⟩] (by decide)⟩

/-- C7: if any record reaching the classification step has an action text
containing neither "up" nor "down", classification aborts with the
`Unknown value` error naming an offending action from the batch, and no
output rows are produced. -/
theorem classification_rejects_unmatched (l : List Rec2) (r : Rec2)
    (hr : r ∈ l) (hup : ¬ SubStr "up" r.action) (hdown : ¬ SubStr "down" r.action) :
    ∃ a, classifyAll l = Except.error (unknownActionMsg a) ∧
      (∃ s ∈ l, s.action = a) ∧ a ≠ "down" ∧ a ≠ "up" ∧
      ∀ ps, classifyAll l ≠ Except.ok ps := by
  have h1 : r.action ≠ "down" := by
    intro he
    exact hdown ⟨[], [], by rw [he]; simp⟩
  have h2 : r.action ≠ "up" := by
    intro he
    exact hup ⟨[], [], by rw [he]; simp⟩
  obtain ⟨a, ha, hmem, hne1, hne2⟩ := classifyAll_error_of_bad hr h1 h2
  refine ⟨a, ha, hmem, hne1, hne2, fun ps hok => ?_⟩
  rw [ha] at hok
  cases hok

/-- Witness for C7: a batch holding the single action "coverage resumed" is
rejected with the classification error. -/
theorem classification_rejects_unmatched_witness :
    ∃ a, classifyAll [⟨⟨⟨2020, 1, 1⟩, 0⟩, "ABC", "2020-01-01", "coverage resumed"⟩] =
        Except.error (unknownActionMsg a) ∧
      (∃ s ∈ [(⟨⟨⟨2020, 1, 1⟩, 0⟩, "ABC", "2020-01-01", "coverage resumed"⟩ : Rec2)],
        s.action = a) ∧ a ≠ "down" ∧ a ≠ "up" ∧
      ∀ ps, classifyAll [⟨⟨⟨2020, 1, 1⟩, 0⟩, "ABC", "2020-01-01", "coverage resumed"⟩] ≠
        Except.ok ps :=
  classification_rejects_unmatched _
    ⟨⟨⟨2020, 1, 1⟩, 0⟩, "ABC", "2020-01-01", "coverage resumed"⟩ (by simp)
    ((not_relevant_iff "coverage resumed").mp (by decide)).1
    ((not_relevant_iff "coverage resumed").mp (by decide)).2

/-- C4: after deduplication a record is kept by the relevance filter exactly
when its action contains the substring "up" or "down" (case-sensitively);
when nothing matches, the records are dropped silently and the builder
returns an empty table rather than an error. -/
theorem filter_keeps_iff_contains (records : List Rec) (r : Rec2) :
    (r ∈ step4 records ↔
      r ∈ step3 records ∧ (SubStr "up" r.action ∨ SubStr "down" r.action)) ∧
    ((∀ s ∈ step3 records, ¬ SubStr "up" s.action ∧ ¬ SubStr "down" s.action) →
      mk_event_df records = Except.ok []) := by
  constructor
  · rw [show step4 records = (step3 records).filter (fun r => relevant r.action) from rfl,
      List.mem_filter]
    constructor
    · rintro ⟨h1, h2⟩
      exact ⟨h1, (relevant_iff _).mp h2⟩
    · rintro ⟨h1, h2⟩
      exact ⟨h1, (relevant_iff _).mpr h2⟩
  · intro hall
    have hnil : step4 records = [] := by
      unfold step4
      rw [List.filter_eq_nil_iff]
      intro s hs
      rw [Bool.not_eq_true]
      exact (not_relevant_iff _).mpr (hall s hs)
    unfold mk_event_df
    rw [hnil]
    rfl

/-- Witness for C4: the action "initiated at hold" contains neither
substring, so the record is silently dropped and the build yields an empty
table. -/
theorem filter_keeps_iff_contains_witness :
    mk_event_df [⟨⟨⟨2020, 1, 1⟩, 0⟩, "ABC", "initiated at hold"⟩] = Except.ok [] :=
  (filter_keeps_iff_contains [⟨⟨⟨2020, 1, 1⟩, 0⟩, "ABC", "initiated at hold"⟩]
    ⟨⟨⟨2020, 1, 1⟩, 0⟩, "ABC", "", ""⟩).2 (by
      intro s hs
      have hstep : step3 [⟨⟨⟨2020, 1, 1⟩, 0⟩, "ABC", "initiated at hold"⟩] =
          [⟨⟨⟨2020, 1, 1⟩, 0⟩, "ABC", "2020-01-01", "initiated at hold"⟩] := by decide
      rw [hstep, List.mem_singleton] at hs
      subst hs
      exact (not_relevant_iff _).mp (by decide))

/-! ### The spec's substring-classification claims against the exact-match code -/

/-- C1 counterexample: the action "downgraded to sell" survives the
relevance filter (it contains "down"), yet the classification helper raises
the `Unknown value` exception instead of assigning "downgrade", and the
builder propagates that error. -/
theorem classify_substring_cex :
    relevant "downgraded to sell" = true ∧
    mk_et "downgraded to sell" = Except.error (unknownActionMsg "downgraded to sell") ∧
    mk_event_df [⟨⟨⟨2020, 1, 1⟩, 0⟩, "ABC", "downgraded to sell"⟩] =
      Except.error (unknownActionMsg "downgraded to sell") := by decide

/-- C1 amended: for a record surviving the relevance filter, classification
assigns "downgrade" when the action text is exactly "down" and "upgrade"
when it is exactly "up"; any other surviving action text raises the
`Unknown value` error naming that text, even when it merely contains "down"
or "up" as a proper substring. -/
theorem classify_exact_only (a : String) (h : relevant a = true) :
    (a = "down" → mk_et a = Except.ok "downgrade") ∧
    (a = "up" → mk_et a = Except.ok "upgrade") ∧
    (a ≠ "down" → a ≠ "up" → mk_et a = Except.error (unknownActionMsg a)) :=
  ⟨fun h1 => by subst h1; decide,
   fun h1 => by subst h1; decide,
   fun h1 h2 => by simp [mk_et, h1, h2]⟩

/-- Witness for the amended C1 at the surviving actions "down" and
"downgraded to sell". -/
theorem classify_exact_only_witness :
    (relevant "down" = true ∧ mk_et "down" = Except.ok "downgrade") ∧
    (relevant "downgraded to sell" = true ∧
      mk_et "downgraded to sell" = Except.error (unknownActionMsg "downgraded to sell")) :=
  ⟨⟨by decide, (classify_exact_only "down" (by decide)).1 rfl⟩,
   ⟨by decide, (classify_exact_only "downgraded to sell" (by decide)).2.2
      (by decide) (by decide)⟩⟩

/-- C2 counterexample: on the spec's end-to-end example input the builder
does not return the claimed single "downgrade" row; the surviving action
"downgrade to sell" is not exactly "down", so the classification exception
aborts the build instead. -/
theorem end_to_end_example_cex :
    mk_event_df
      [⟨⟨⟨2020, 1, 1⟩, 0⟩, "ABC", "upgrade to buy"⟩,
       ⟨⟨⟨2020, 1, 1⟩, 1⟩, "ABC", "downgrade to sell"⟩] =
      Except.error (unknownActionMsg "downgrade to sell") := by decide

/-- C2 amended: with the two same-day "ABC" records carrying the exact
tokens the code classifies ("up" first, "down" timestamped later), the
builder returns exactly one row: event_id 1, firm "ABC", event_date
"2020-01-01", event_type "downgrade". -/
theorem end_to_end_example_amended :
    mk_event_df
      [⟨⟨⟨2020, 1, 1⟩, 0⟩, "ABC", "up"⟩, ⟨⟨⟨2020, 1, 1⟩, 1⟩, "ABC", "down"⟩] =
      Except.ok [⟨1, "ABC", "2020-01-01", "downgrade"⟩] := by decide

/-- Sorting a two-record frame by timestamp puts the chronologically
earlier record first, whichever order the records arrive in. -/
theorem insertionSort_pair {a b : Rec2} (hab : recLE a b) (hba : ¬ recLE b a) :
    List.insertionSort recLE [a, b] = [a, b] ∧
    List.insertionSort recLE [b, a] = [a, b] := by
  constructor
  · simp [List.insertionSort, List.orderedInsert, hab]
  · simp [List.insertionSort, List.orderedInsert, hba]

/-- Grouping a two-record frame whose records share one key keeps exactly
the second (later-positioned) record. -/
theorem dedupLast_pair_same_key {a b : Rec2} (h : recKey a = recKey b) :
    dedupLast [a, b] = [b] := by
  have hmap : [a, b].map recKey = [recKey b, recKey b] := by simp [h]
  have hk : ([a, b].map recKey).dedup = [recKey b] := by
    rw [hmap, List.dedup_cons_of_mem (by simp), List.dedup_cons_of_not_mem (by simp),
      List.dedup_nil]
  have hgk : groupKeys [a, b] = [recKey b] := by
    rw [groupKeys, hk]
    simp [List.insertionSort, List.orderedInsert]
  have hfil : [a, b].filter (fun r => recKey r = recKey b) = [a, b] :=
    List.filter_eq_self.mpr (by
      intro x hx
      rcases List.mem_cons.mp hx with rfl | hx
      · exact decide_eq_true h
      · rcases List.mem_singleton.mp hx with rfl
        exact decide_eq_true rfl)
  have hlast : lastOfGroup [a, b] (recKey b) = some b := by
    rw [lastOfGroup, hfil, show [a, b] = [a] ++ [b] from rfl, List.getLast?_concat]
  rw [dedupLast, hgk]
  simp [List.filterMap_cons, hlast]

/-- C3 counterexample: two records for the same firm and day with different
timestamps and different actions ("up" earlier, "downgraded" later): the
later record's classification never appears in any output — the build
aborts with the classification exception. -/
theorem dedup_keeps_later_cex :
    mk_event_df
      [⟨⟨⟨2020, 1, 1⟩, 0⟩, "ABC", "up"⟩, ⟨⟨⟨2020, 1, 1⟩, 1⟩, "ABC", "downgraded"⟩] =
      Except.error (unknownActionMsg "downgraded") := by decide

/-- C3 amended: for every two records sharing the uppercased firm and the
calendar date, with the second chronologically later, whose (distinct)
actions are the exact tokens "up" and "down", the builder emits exactly one
row — the later record's classification — whichever order the two records
arrive in. -/
theorem dedup_keeps_later (r1 r2 : Rec)
    (hfirm : upperStr r1.firm = upperStr r2.firm)
    (hdate : fmtDate r1.ts.date = fmtDate r2.ts.date)
    (hts : tsLT r1.ts r2.ts)
    (hact : (r1.action = "up" ∧ r2.action = "down") ∨
      (r1.action = "down" ∧ r2.action = "up")) :
    mk_event_df [r1, r2] =
      Except.ok [⟨1, upperStr r2.firm, fmtDate r2.ts.date,
        if r2.action = "down" then "downgrade" else "upgrade"⟩] ∧
    mk_event_df [r2, r1] =
      Except.ok [⟨1, upperStr r2.firm, fmtDate r2.ts.date,
        if r2.action = "down" then "downgrade" else "upgrade"⟩] := by
  have hab : recLE (normalizeRec r1) (normalizeRec r2) := hts.1
  have hba : ¬ recLE (normalizeRec r2) (normalizeRec r1) := hts.2
  have hkey : recKey (normalizeRec r1) = recKey (normalizeRec r2) := by
    simp [recKey, normalizeRec, hdate, hfirm]
  obtain ⟨hs1, hs2⟩ := insertionSort_pair hab hba
  have hded : dedupLast [normalizeRec r1, normalizeRec r2] = [normalizeRec r2] :=
    dedupLast_pair_same_key hkey
  have hstep12 : step3 [r1, r2] = [normalizeRec r2] := by
    unfold step3 step2
    simp only [List.map_cons, List.map_nil]
    rw [hs1, hded]
  have hstep21 : step3 [r2, r1] = [normalizeRec r2] := by
    unfold step3 step2
    simp only [List.map_cons, List.map_nil]
    rw [hs2, hded]
  have hcommon : ∀ recs : List Rec, step3 recs = [normalizeRec r2] →
      mk_event_df recs = Except.ok [⟨1, upperStr r2.firm, fmtDate r2.ts.date,
        if r2.action = "down" then "downgrade" else "upgrade"⟩] := by
    intro recs hstep
    rcases hact with ⟨ha1, ha2⟩ | ⟨ha1, ha2⟩
    · have hrel : relevant (normalizeRec r2).action = true := by
        show relevant r2.action = true
        rw [ha2]; decide
      have hfil : step4 recs = [normalizeRec r2] := by
        rw [step4, hstep]
        simp [hrel]
      have hmk : mk_et (normalizeRec r2).action = Except.ok "downgrade" := by
        show mk_et r2.action = _
        rw [ha2]; decide
      have hcls : classifyAll [normalizeRec r2] = Except.ok
          [⟨(normalizeRec r2).firm, (normalizeRec r2).event_date, "downgrade"⟩] := by
        rw [classifyAll_cons, hmk]
        rfl
      unfold mk_event_df
      rw [hfil, hcls]
      simp [assignIds, assignIdsFrom, normalizeRec, ha2]
    · have hrel : relevant (normalizeRec r2).action = true := by
        show relevant r2.action = true
        rw [ha2]; decide
      have hfil : step4 recs = [normalizeRec r2] := by
        rw [step4, hstep]
        simp [hrel]
      have hmk : mk_et (normalizeRec r2).action = Except.ok "upgrade" := by
        show mk_et r2.action = _
        rw [ha2]; decide
      have hcls : classifyAll [normalizeRec r2] = Except.ok
          [⟨(normalizeRec r2).firm, (normalizeRec r2).event_date, "upgrade"⟩] := by
        rw [classifyAll_cons, hmk]
        rfl
      unfold mk_event_df
      rw [hfil, hcls]
      simp [assignIds, assignIdsFrom, normalizeRec, ha2]
  exact ⟨hcommon [r1, r2] hstep12, hcommon [r2, r1] hstep21⟩

/-- Witness for the amended C3: a later "down" beats an earlier "up" for
the same firm (up to case) on the same day, in both input orders. -/
theorem dedup_keeps_later_witness :
    upperStr "abc" = upperStr "ABC" ∧
    fmtDate (⟨⟨2020, 1, 1⟩, 0⟩ : Timestamp).date =
      fmtDate (⟨⟨2020, 1, 1⟩, 60⟩ : Timestamp).date ∧
    tsLT ⟨⟨2020, 1, 1⟩, 0⟩ ⟨⟨2020, 1, 1⟩, 60⟩ ∧
    (mk_event_df [⟨⟨⟨2020, 1, 1⟩, 0⟩, "abc", "up"⟩, ⟨⟨⟨2020, 1, 1⟩, 60⟩, "ABC", "down"⟩] =
        Except.ok [⟨1, upperStr "ABC", fmtDate ⟨2020, 1, 1⟩,
          if "down" = "down" then "downgrade" else "upgrade"⟩] ∧
      mk_event_df [⟨⟨⟨2020, 1, 1⟩, 60⟩, "ABC", "down"⟩, ⟨⟨⟨2020, 1, 1⟩, 0⟩, "abc", "up"⟩] =
        Except.ok [⟨1, upperStr "ABC", fmtDate ⟨2020, 1, 1⟩,
          if "down" = "down" then "downgrade" else "upgrade"⟩]) :=
  ⟨by decide, by decide, by decide,
    dedup_keeps_later ⟨⟨⟨2020, 1, 1⟩, 0⟩, "abc", "up"⟩ ⟨⟨⟨2020, 1, 1⟩, 60⟩, "ABC", "down"⟩
      (by decide) (by decide) (by decide) (Or.inl ⟨rfl, rfl⟩)⟩
